import Mathlib

set_option maxRecDepth 10000

/-!
Verification of the ConvGPU convolution engine (`src/conv.cuh`, namespace `cnv`).

The C++ source is shallowly embedded as follows.

* `cnv::Matrix<T>` becomes the structure `cnv.Matrix T`: the raw owned pointer
  `T* data` becomes `Option (List T)` (`none` models the null pointer), and the
  `unsigned int` extents become `Nat`.
* Machine integers (`int` / `unsigned int`) of the device kernel are modelled
  as unbounded `Int` / `Nat`; where two's-complement wraparound of a w-bit
  element type matters the element type is `ZMod (2^w)`, so that every `+` and
  `*` reduces modulo `2^w` exactly as the native type wraps.  The mixed
  `int`/`unsigned` comparisons `xi < width && xi >= 0` in the kernel guard
  behave (for extents below 2^31, i.e. every realisable launch) exactly like
  the mathematical conjunction `0 ≤ xi < width` used here: a negative `xi`
  converts to a huge unsigned value, failing `xi < width`.
* Device buffers are total functions `Nat → T`; reads beyond the bytes that
  were actually copied to the accelerator are undefined behaviour in CUDA and
  are modelled by the default value `0`.
* `conv2D` in the source mutates only `output.data` (the copy-back `cudaMemcpy`)
  and takes `input` and `kernel` by const reference; the embedding therefore
  returns the post-call states of all three matrices as a triple.
* `conv2D` declares `T *d_kernel` and then byte-copies `kernel.data` — an array
  of `float` — into it, so for any element type `T` other than `float` the
  device kernel reads each 32-bit IEEE-754 float bit pattern reinterpreted as a
  `T`.  This reinterpretation is modelled by the explicit `reinterpret`
  parameter; `int32OfFloatBits` below is its instantiation for `T = int`.
-/

namespace cnv

/-- `cnv::Matrix<T>` from `src/conv.cuh`: an owned flat buffer (`data`,
`none` = null pointer) with extents `rows` and `cols`. -/
structure Matrix (T : Type) where
  data : Option (List T)
  rows : Nat
  cols : Nat

/-- The buffer offset `i + j * cols` used by both `Matrix::set` and
`Matrix::get` (`data[i + j * cols]`). -/
def Matrix.index (i j cols : Nat) : Nat :=
  i + j * cols

/-- `Matrix::get(i, j)`: returns `data[i + j * cols]`.  Reads through a null
pointer or past the end of the buffer are undefined behaviour in the source and
are modelled by the default value `0`. -/
def Matrix.get {T : Type} [Zero T] (m : Matrix T) (i j : Nat) : T :=
  (m.data.getD []).getD (Matrix.index i j m.cols) 0

/-- `Matrix::set(value, i, j)`: writes `data[i + j * cols] = value`.  An
out-of-range offset smashes memory in the source (undefined behaviour); here
`List.set` leaves the buffer unchanged in that case. -/
def Matrix.set {T : Type} (m : Matrix T) (value : T) (i j : Nat) : Matrix T :=
  ⟨m.data.map (fun l => l.set (Matrix.index i j m.cols) value), m.rows, m.cols⟩

/-- `Matrix(unsigned int _rows, unsigned int _cols)`: allocates
`new T[rows * cols]`.  `new T[n]` default-initialises scalar elements, leaving
them indeterminate; the parameter `junk` supplies those indeterminate initial
contents. -/
def Matrix.ofDims {T : Type} (junk : Nat → T) (rows cols : Nat) : Matrix T :=
  ⟨some ((List.range (rows * cols)).map junk), rows, cols⟩

/-- `Matrix(const Matrix&)` (copy constructor): allocates `rows * cols`
elements and `std::copy`s exactly `rows * cols` elements from the source
buffer.  Copying from a null or too-short source buffer is undefined behaviour
in the source. -/
def Matrix.copy {T : Type} (m : Matrix T) : Matrix T :=
  ⟨some ((m.data.getD []).take (m.rows * m.cols)), m.rows, m.cols⟩

/-- `Matrix(Matrix&&)` (move constructor): the new matrix steals `data`,
`rows`, `cols`; the only mutation of the source is `matrix.data = nullptr` —
its `rows` and `cols` fields are left untouched.  Returns
`(new object, moved-from source)`. -/
def Matrix.move {T : Type} (m : Matrix T) : Matrix T × Matrix T :=
  (⟨m.data, m.rows, m.cols⟩, ⟨none, m.rows, m.cols⟩)

/-- `operator=(const Matrix&)` (copy assignment), for distinct objects (the
source skips the body on self-assignment): frees the old buffer of `dst` and
deep-copies `src` exactly as the copy constructor does. -/
def Matrix.copyAssign {T : Type} (dst src : Matrix T) : Matrix T :=
  ⟨some ((src.data.getD []).take (src.rows * src.cols)), src.rows, src.cols⟩

/-- `operator=(Matrix&&)` (move assignment), for distinct objects: frees the
old buffer of `dst`, steals `data`, `rows`, `cols` from `src`, and sets only
`src.data = nullptr`.  Returns `(assigned dst, moved-from src)`. -/
def Matrix.moveAssign {T : Type} (dst src : Matrix T) : Matrix T × Matrix T :=
  (⟨src.data, src.rows, src.cols⟩, ⟨none, src.rows, src.cols⟩)

/-- `Matrix() = default`: the struct has no member initialisers, so the
defaulted default constructor performs no initialisation at all — `data`,
`rows` and `cols` hold indeterminate values (reading them is undefined
behaviour).  The parameters supply those indeterminate values. -/
def Matrix.defaultCtor {T : Type} (junkData : Option (List T)) (junkRows junkCols : Nat) :
    Matrix T :=
  ⟨junkData, junkRows, junkCols⟩

/-- Helper for the initializer-list constructor: the inner
`for(const auto& elem : row)` loop, writing `data[i + j * cols]` for
`j = 0, 1, ...` (via `set(elem, i, j)`). -/
def Matrix.setRow {T : Type} (cols i : Nat) : Nat → List T → List T → List T
  | _, buf, [] => buf
  | j, buf, e :: rest => Matrix.setRow cols i (j + 1) (buf.set (Matrix.index i j cols) e) rest

/-- Helper for the initializer-list constructor: the outer
`for(const auto& row : list)` loop over `i = 0, 1, ...`. -/
def Matrix.setRows {T : Type} (cols : Nat) : Nat → List (List T) → List T → List T
  | _, [], buf => buf
  | i, row :: rest, buf => Matrix.setRows cols (i + 1) rest (Matrix.setRow cols i 0 buf row)

/-- `Matrix(const std::initializer_list<std::initializer_list<T>>&)`:
`rows` = outer length, `cols` = length of the first inner list
(`list.begin()->size()`; undefined on an empty outer list, modelled by `0`),
buffer = `new T[rows * cols]` (indeterminate contents `junk`) then
`set(elem, i, j)` for each element. -/
def Matrix.ofLists {T : Type} (junk : Nat → T) (ll : List (List T)) : Matrix T :=
  ⟨some (Matrix.setRows ((ll.headD []).length) 0 ll
      ((List.range (ll.length * (ll.headD []).length)).map junk)),
   ll.length, (ll.headD []).length⟩

/-- The buffer-size invariant of the spec: the matrix owns a (non-null) buffer
of exactly `rows * cols` elements. -/
def Matrix.sizeInv {T : Type} (m : Matrix T) : Prop :=
  (match m.data with
   | some l => l.length == m.rows * m.cols
   | none => false) = true

/-- One iteration of the accumulation loop of `kernel_conv2D`, for loop
offsets `(i, j)`: the zero-initialised `value` is overwritten by
`input[xi + yj * width]` exactly when
`xi < width && xi >= 0 && yj < height && yj >= 0`, and the term
`value * kernel[(i + kx) + (j + ky) * kernelHeight]` is added to the sum. -/
def convTerm {T : Type} [CommRing T] (input kernel : Nat → T)
    (width height kernelHeight kx ky x y : Nat) (i j : Int) : T :=
  (if (x : Int) + i < (width : Int) ∧ 0 ≤ (x : Int) + i ∧
      (y : Int) + j < (height : Int) ∧ 0 ≤ (y : Int) + j
    then input (((x : Int) + i) + ((y : Int) + j) * (width : Int)).toNat
    else 0)
  * kernel ((i + (kx : Int)) + (j + (ky : Int)) * (kernelHeight : Int)).toNat

/-- The full accumulation of `kernel_conv2D` at output coordinate `(x, y)`:
`kx = kernelWidth / 2`, `ky = kernelHeight / 2` (truncating unsigned division),
then `sum += value * kernel[...]` for `i` from `-kx` to `kx` (outer loop) and
`j` from `-ky` to `ky` (inner loop), in source order.  The loop counter `a`
(resp. `b`) ranges over `0, ..., 2*kx` and represents `i = a - kx`. -/
def convValue {T : Type} [CommRing T] (input kernel : Nat → T)
    (width height kernelWidth kernelHeight x y : Nat) : T :=
  (List.range (2 * (kernelWidth / 2) + 1)).foldl
    (fun (s : T) (a : Nat) =>
      (List.range (2 * (kernelHeight / 2) + 1)).foldl
        (fun (t : T) (b : Nat) =>
          t + convTerm input kernel width height kernelHeight
                (kernelWidth / 2) (kernelHeight / 2) x y
                ((a : Int) - ((kernelWidth / 2 : Nat) : Int))
                ((b : Int) - ((kernelHeight / 2 : Nat) : Int)))
        s)
    0

/-- The device kernel `kernel_conv2D`, seen from one logical thread with
output coordinate `(x, y)` (thread coordinates are non-negative, hence `Nat`):
if `x >= width || y >= height` the thread returns without writing (`none`);
otherwise it writes the accumulated sum to flat output index `y * width + x`
(`some (index, value)`). -/
def kernel_conv2D {T : Type} [CommRing T] (input kernel : Nat → T)
    (width height kernelWidth kernelHeight x y : Nat) : Option (Nat × T) :=
  if width ≤ x ∨ height ≤ y then none
  else some (y * width + x, convValue input kernel width height kernelWidth kernelHeight x y)

/-- The contents of the device output buffer after the launch of
`kernel_conv2D` over a grid covering `width × height` (over-provisioned
threads write nothing): position `p < width * height` was written by the
unique in-range thread `(x, y) = (p % width, p / width)` (since
`y * width + x = p`).  The `none` branch is unreachable for `p` in range. -/
def launchGrid {T : Type} [CommRing T] (input kernel : Nat → T)
    (width height kernelWidth kernelHeight : Nat) : List T :=
  (List.range (width * height)).map fun p =>
    match kernel_conv2D input kernel width height kernelWidth kernelHeight
        (p % width) (p / width) with
    | some r => r.2
    | none => 0

/-- The host orchestrator `conv2D(const Matrix<T>& input, Matrix<T>& output,
const Kernel& kernel)`.  `width = input.cols`, `height = input.rows`.  The
input buffer is byte-copied to the device unchanged; the kernel buffer —
an array of `float` — is byte-copied into the `T`-typed `d_kernel`, so the
device kernel reads each stored 32-bit value reinterpreted as a `T`
(parameter `reinterpret`; the identity when `T` is `float` itself).  The
copy-back `cudaMemcpy(output.data, d_output, size, ...)` overwrites exactly
the first `width * height` elements of `output`'s buffer.  Only
`output.data` is mutated; the post-call states are returned as
`(input, output, kernel)`. -/
def conv2D {T K : Type} [CommRing T] [Zero K] (reinterpret : K → T)
    (input output : Matrix T) (kernel : Matrix K) :
    Matrix T × Matrix T × Matrix K :=
  (input,
   ⟨some (launchGrid (fun n => (input.data.getD []).getD n 0)
            (fun n => reinterpret ((kernel.data.getD []).getD n 0))
            input.cols input.rows kernel.cols kernel.rows
          ++ (output.data.getD []).drop (input.cols * input.rows)),
    output.rows, output.cols⟩,
   kernel)

/-- `check_cuda_error(message)`: reads the accelerator's last-error status
(argument `lastError`; `none` = `cudaSuccess`, `some desc` = failure with
description `desc`).  On failure it writes
`"CUDA error after " << message << ": " << description` to `std::cerr` and
calls `exit(-1)`; the result models that observable outcome as
`some (stderr line, exit code)`, and `none` means the call returned normally. -/
def check_cuda_error (message : String) (lastError : Option String) : Option (String × Int) :=
  match lastError with
  | some desc => some (("CUDA error after " ++ message ++ ": " ++ desc), -1)
  | none => none

/-- One accelerator-related step of the body of `conv2D`. -/
inductive GpuOp : Type where
  | malloc : String → GpuOp
  | memcpyH2D : String → GpuOp
  | launchKernel : GpuOp
  | deviceSynchronize : GpuOp
  | memcpyD2H : String → GpuOp
  | free : String → GpuOp
  | errorCheck : String → GpuOp
deriving DecidableEq

/-- The exact sequence of accelerator-side operations and `check_cuda_error`
calls performed by `conv2D`, in source order (note the duplicated
`"cudaMalloc d_input"` context string after the second allocation, and the
absence of any check after the kernel launch and after the device-to-host
copy-back). -/
def conv2DTrace : List GpuOp :=
  [GpuOp.malloc ("d_input"), GpuOp.errorCheck ("cudaMalloc d_input"),
   GpuOp.malloc ("d_output"), GpuOp.errorCheck ("cudaMalloc d_input"),
   GpuOp.malloc ("d_kernel"), GpuOp.errorCheck ("cudaMalloc d_kernel"),
   GpuOp.memcpyH2D ("d_input"), GpuOp.errorCheck ("cudaMemcpy d_input"),
   GpuOp.memcpyH2D ("d_kernel"), GpuOp.errorCheck ("cudaMemcpy d_kernel"),
   GpuOp.launchKernel, GpuOp.deviceSynchronize,
   GpuOp.memcpyD2H ("output"),
   GpuOp.free ("d_input"), GpuOp.free ("d_output"), GpuOp.free ("d_kernel")]

/-- The accelerator-side operations enumerated by the error-handling contract:
buffer allocations, host-to-device copies, the kernel launch, and the
device-to-host copy-back. -/
def isAccelSideOp : GpuOp → Bool
  | GpuOp.malloc _ => true
  | GpuOp.memcpyH2D _ => true
  | GpuOp.launchKernel => true
  | GpuOp.memcpyD2H _ => true
  | _ => false

/-- Whether a trace step is a `check_cuda_error` call. -/
def isCheck : GpuOp → Bool
  | GpuOp.errorCheck _ => true
  | _ => false

/-- For each accelerator-side operation of a trace, in order, whether the
immediately following step is an error check. -/
def accelOpsChecked (tr : List GpuOp) : List Bool :=
  (List.range tr.length).filterMap fun n =>
    if isAccelSideOp (tr.getD n GpuOp.deviceSynchronize)
    then some (isCheck (tr.getD (n + 1) GpuOp.deviceSynchronize))
    else none

/-- The zero-padded input read described by the specification: the claim's
`in(x+i, y+j)` is `input[(x+i) + (y+j)*width]` when `0 <= x+i < width` and
`0 <= y+j < height`, and contributes `0` otherwise. -/
def specPaddedRead {T : Type} [Zero T] (input : Nat → T)
    (width height x y : Nat) (i j : Int) : T :=
  if 0 ≤ (x : Int) + i ∧ (x : Int) + i < (width : Int) ∧
     0 ≤ (y : Int) + j ∧ (y : Int) + j < (height : Int)
  then input (((x : Int) + i) + ((y : Int) + j) * (width : Int)).toNat
  else 0

/-- IEEE-754 single-precision bit pattern of the literal `0.0f`. -/
def f32bits_zero : Nat := 0

/-- IEEE-754 single-precision bit pattern of the literal `1.0f`
(`0x3F800000`). -/
def f32bits_one : Nat := 1065353216

/-- IEEE-754 single-precision bit pattern of the literal `2.0f`
(`0x40000000`). -/
def f32bits_two : Nat := 1073741824

/-- IEEE-754 single-precision bit pattern of the literal `-4.0f`
(`0xC0800000`). -/
def f32bits_negFour : Nat := 3229614080

/-- Reinterpretation of a 32-bit float bit pattern as a 32-bit `int` (the
byte copy of `kernel.data` into `T* d_kernel` for `T = int`): the same 32
bits read in two's complement, i.e. the pattern itself in `ZMod (2^32)`. -/
def int32OfFloatBits (bits : Nat) : ZMod (2 ^ 32) := (bits : ZMod (2 ^ 32))

/-- The 5×5 integer input matrix of `testConvolution` in `test/main.cu`,
with `int` modelled as `ZMod (2^32)`. -/
def testInput5 : Matrix (ZMod (2 ^ 32)) :=
  Matrix.ofLists (fun _ => 0)
    [[1, 1, 1, 1, 1],
     [1, 4, 5, 4, 1],
     [1, 5, 6, 5, 1],
     [1, 3, 5, 4, 1],
     [1, 1, 1, 1, 1]]

/-- The 3×3 Laplacian kernel of `testConvolution`, represented by the IEEE-754
bit patterns of its `float` entries (this is what the `T = int` instantiation
of the device kernel actually reads after the byte copy). -/
def laplacianBits : Matrix Nat :=
  Matrix.ofLists (fun _ => 0)
    [[f32bits_zero, f32bits_one, f32bits_zero],
     [f32bits_one, f32bits_negFour, f32bits_one],
     [f32bits_zero, f32bits_one, f32bits_zero]]

end cnv

/-- Folding `fun s a => s + g a` over `List.range n` sums `g` over the range. -/
theorem foldl_add_range {M : Type} [AddCommMonoid M] (g : Nat → M) :
    ∀ (n : Nat) (init : M),
      (List.range n).foldl (fun s a => s + g a) init = init + ∑ a ∈ Finset.range n, g a := by
  intro n
  induction n with
  | zero => intro init; simp
  | succ n ih =>
    intro init
    rw [List.range_succ, List.foldl_append, ih, Finset.sum_range_succ]
    simp [add_assoc]

/-- Nested accumulation over two ranges equals the double sum. -/
theorem foldl_foldl_add_range {M : Type} [AddCommMonoid M] (f : Nat → Nat → M) (m : Nat) :
    ∀ (n : Nat) (init : M),
      (List.range n).foldl
          (fun s a => (List.range m).foldl (fun t b => t + f a b) s) init
        = init + ∑ a ∈ Finset.range n, ∑ b ∈ Finset.range m, f a b := by
  intro n
  induction n with
  | zero => intro init; simp
  | succ n ih =>
    intro init
    rw [List.range_succ, List.foldl_append, ih]
    simp only [List.foldl_cons, List.foldl_nil]
    rw [foldl_add_range, Finset.sum_range_succ, add_assoc]

/-- The symmetric integer window `[-k, k]` is the image of `List.range (2k+1)`
under `a ↦ a - k`. -/
theorem Icc_eq_range_map (k : Nat) :
    Finset.Icc (-(k : Int)) (k : Int)
      = (Finset.range (2 * k + 1)).map
          ⟨fun (a : Nat) => (a : Int) - (k : Int), fun a b hab => by simpa using hab⟩ := by
  ext x
  simp only [Finset.mem_Icc, Finset.mem_map, Finset.mem_range, Function.Embedding.coeFn_mk]
  constructor
  · intro hx
    exact ⟨(x + k).toNat, by omega, by omega⟩
  · rintro ⟨a, ha, rfl⟩
    omega

/-- A loop term of `kernel_conv2D` equals the specification's summand
`kernel[(i+kx) + (j+ky)*kernelHeight] * in(x+i, y+j)`. -/
theorem convTerm_eq_spec {T : Type} [CommRing T] (input kernel : Nat → T)
    (width height kernelHeight kx ky x y : Nat) (i j : Int) :
    cnv.convTerm input kernel width height kernelHeight kx ky x y i j
      = kernel ((i + (kx : Int)) + (j + (ky : Int)) * (kernelHeight : Int)).toNat
          * cnv.specPaddedRead input width height x y i j := by
  unfold cnv.convTerm cnv.specPaddedRead
  rw [mul_comm]
  congr 1
  exact if_congr (by constructor <;> (intro h; exact ⟨h.2.1, h.1, h.2.2.2, h.2.2.1⟩)) rfl rfl

/-- The accumulation loop of `kernel_conv2D` computes the specification's
double sum over the window `[-kx, kx] × [-ky, ky]`. -/
theorem convValue_eq_sum {T : Type} [CommRing T] (input kernel : Nat → T)
    (width height kernelWidth kernelHeight x y : Nat) :
    cnv.convValue input kernel width height kernelWidth kernelHeight x y
      = ∑ i ∈ Finset.Icc (-((kernelWidth / 2 : Nat) : Int)) ((kernelWidth / 2 : Nat) : Int),
          ∑ j ∈ Finset.Icc (-((kernelHeight / 2 : Nat) : Int)) ((kernelHeight / 2 : Nat) : Int),
            kernel ((i + ((kernelWidth / 2 : Nat) : Int))
                + (j + ((kernelHeight / 2 : Nat) : Int)) * (kernelHeight : Int)).toNat
              * cnv.specPaddedRead input width height x y i j := by
  unfold cnv.convValue
  rw [foldl_foldl_add_range
        (fun (a b : Nat) =>
          cnv.convTerm input kernel width height kernelHeight
            (kernelWidth / 2) (kernelHeight / 2) x y
            ((a : Int) - ((kernelWidth / 2 : Nat) : Int))
            ((b : Int) - ((kernelHeight / 2 : Nat) : Int)))]
  rw [zero_add]
  simp only [Icc_eq_range_map, Finset.sum_map, Function.Embedding.coeFn_mk]
  refine Finset.sum_congr rfl fun a _ => Finset.sum_congr rfl fun b _ => ?_
  exact convTerm_eq_spec input kernel width height kernelHeight
    (kernelWidth / 2) (kernelHeight / 2) x y _ _

/-- C1: for every output coordinate `(x, y)` with `x < width` and
`y < height`, the parallel kernel writes `output[x + y*width]` equal to the
sum over `i ∈ [-kx, kx]`, `j ∈ [-ky, ky]` of
`kernel[(i+kx) + (j+ky)*kernelHeight] * in(x+i, y+j)`, where
`kx = kernelWidth/2`, `ky = kernelHeight/2` (truncating division) and
`in` reads the input with zero padding; a thread whose `(x, y)` is outside
`width × height` writes nothing. -/
theorem kernel_conv2D_matches_spec {T : Type} [CommRing T] (input kernel : Nat → T)
    (width height kernelWidth kernelHeight x y : Nat) :
    cnv.kernel_conv2D input kernel width height kernelWidth kernelHeight x y
      = if x < width ∧ y < height then
          some (x + y * width,
            ∑ i ∈ Finset.Icc (-((kernelWidth / 2 : Nat) : Int)) ((kernelWidth / 2 : Nat) : Int),
              ∑ j ∈ Finset.Icc (-((kernelHeight / 2 : Nat) : Int)) ((kernelHeight / 2 : Nat) : Int),
                kernel ((i + ((kernelWidth / 2 : Nat) : Int))
                    + (j + ((kernelHeight / 2 : Nat) : Int)) * (kernelHeight : Int)).toNat
                  * cnv.specPaddedRead input width height x y i j)
        else none := by
  by_cases h : x < width ∧ y < height
  · rw [if_pos h]
    unfold cnv.kernel_conv2D
    rw [if_neg (by omega), Nat.add_comm (y * width) x, convValue_eq_sum]
  · rw [if_neg h]
    unfold cnv.kernel_conv2D
    rw [if_pos (by omega)]

/-- Device-kernel-level linearity: with all three buffers over the same
(exact-arithmetic) element type, convolving against the pointwise sum of two
kernel buffers writes, at every coordinate, exactly the sum of the two
individual results. -/
theorem kernel_conv2D_linear {T : Type} [CommRing T] (input k1 k2 : Nat → T)
    (width height kernelWidth kernelHeight x y : Nat) :
    cnv.kernel_conv2D input (fun n => k1 n + k2 n) width height kernelWidth kernelHeight x y
      = (cnv.kernel_conv2D input k1 width height kernelWidth kernelHeight x y).bind
          (fun r1 =>
            (cnv.kernel_conv2D input k2 width height kernelWidth kernelHeight x y).map
              (fun r2 => (r1.1, r1.2 + r2.2))) := by
  unfold cnv.kernel_conv2D
  by_cases h : width ≤ x ∨ height ≤ y
  · simp [h]
  · simp only [if_neg h, Option.bind_some, Option.map_some, Option.some_bind]
    have hv : cnv.convValue input (fun n => k1 n + k2 n)
          width height kernelWidth kernelHeight x y
        = cnv.convValue input k1 width height kernelWidth kernelHeight x y
          + cnv.convValue input k2 width height kernelWidth kernelHeight x y := by
      rw [convValue_eq_sum, convValue_eq_sum, convValue_eq_sum, ← Finset.sum_add_distrib]
      refine Finset.sum_congr rfl fun i _ => ?_
      rw [← Finset.sum_add_distrib]
      refine Finset.sum_congr rfl fun j _ => ?_
      simp [add_mul]
    rw [hv]
    rfl

/-- A ring homomorphism commutes with the device kernel's accumulation. -/
theorem convValue_map {R S : Type} [CommRing R] [CommRing S] (f : R →+* S)
    (input kernel : Nat → R) (width height kernelWidth kernelHeight x y : Nat) :
    cnv.convValue (fun n => f (input n)) (fun n => f (kernel n))
        width height kernelWidth kernelHeight x y
      = f (cnv.convValue input kernel width height kernelWidth kernelHeight x y) := by
  rw [convValue_eq_sum, convValue_eq_sum, map_sum]
  refine Finset.sum_congr rfl fun i _ => ?_
  rw [map_sum]
  refine Finset.sum_congr rfl fun j _ => ?_
  rw [map_mul]
  congr 1
  unfold cnv.specPaddedRead
  rw [apply_ite f, map_zero]

/-- Casting an integer reduced modulo `2^w` into `ZMod (2^w)` is the same as
casting the integer itself. -/
theorem intCast_emod_pow_two (w : Nat) (a : Int) :
    (((a % ((2 : Int) ^ w)) : Int) : ZMod (2 ^ w)) = ((a : Int) : ZMod (2 ^ w)) := by
  have h0 : ((2 : ZMod (2 ^ w))) ^ w = 0 := by
    have h1 : (((2 ^ w : Nat) : ZMod (2 ^ w))) = 0 := ZMod.natCast_self (2 ^ w)
    push_cast at h1
    exact h1
  conv_rhs => rw [← Int.emod_add_ediv a ((2 : Int) ^ w)]
  push_cast
  rw [h0]
  ring

/-- C8: for a w-bit integer element type (modelled as `ZMod (2^w)`), the
device kernel accumulates in the element type itself with no intermediate
widening: at every thread it stores exactly the mathematically exact integer
weighted sum reduced modulo `2^w` (the type's native wraparound), never a
saturated value, and writes it at the same output index. -/
theorem kernel_conv2D_wraparound (w : Nat) (input kernel : Nat → Int)
    (width height kernelWidth kernelHeight x y : Nat) :
    cnv.kernel_conv2D (T := ZMod (2 ^ w))
        (fun n => ((input n : Int) : ZMod (2 ^ w)))
        (fun n => ((kernel n : Int) : ZMod (2 ^ w)))
        width height kernelWidth kernelHeight x y
      = Option.map (fun r => (r.1, (((r.2 % ((2 : Int) ^ w)) : Int) : ZMod (2 ^ w))))
          (cnv.kernel_conv2D (T := Int) input kernel
            width height kernelWidth kernelHeight x y) := by
  unfold cnv.kernel_conv2D
  by_cases h : width ≤ x ∨ height ≤ y
  · simp [h]
  · simp only [if_neg h, Option.map_some, Option.map_some']
    have hcast := convValue_map (Int.castRingHom (ZMod (2 ^ w))) input kernel
      width height kernelWidth kernelHeight x y
    simp only [Int.coe_castRingHom] at hcast
    rw [hcast, intCast_emod_pow_two]

/-- C5: with `output` pre-sized to the input's extents, `conv2D` returns with
`output` having the same extents as `input`, and the `input` and `kernel`
matrices entirely unchanged — the only mutation is the contents of `output`'s
element buffer (its extents are also untouched). -/
theorem conv2D_shape_and_frame {T K : Type} [CommRing T] [Zero K] (reinterpret : K → T)
    (input output : cnv.Matrix T) (kernel : cnv.Matrix K)
    (hr : output.rows = input.rows) (hc : output.cols = input.cols) :
    (cnv.conv2D reinterpret input output kernel).1 = input
  ∧ (cnv.conv2D reinterpret input output kernel).2.2 = kernel
  ∧ (cnv.conv2D reinterpret input output kernel).2.1.rows = output.rows
  ∧ (cnv.conv2D reinterpret input output kernel).2.1.cols = output.cols
  ∧ (cnv.conv2D reinterpret input output kernel).2.1.rows = input.rows
  ∧ (cnv.conv2D reinterpret input output kernel).2.1.cols = input.cols :=
  ⟨rfl, rfl, rfl, rfl, hr, hc⟩

/-- C5 witness: the frame theorem applied to concrete 1×1 matrices. -/
theorem conv2D_shape_and_frame_witness :
    (cnv.conv2D (fun b : Nat => (b : Int)) (cnv.Matrix.ofDims (fun _ => (0 : Int)) 1 1)
        (cnv.Matrix.ofDims (fun _ => (0 : Int)) 1 1)
        (cnv.Matrix.ofDims (fun _ => (0 : Nat)) 1 1)).1
      = cnv.Matrix.ofDims (fun _ => (0 : Int)) 1 1
  ∧ (cnv.conv2D (fun b : Nat => (b : Int)) (cnv.Matrix.ofDims (fun _ => (0 : Int)) 1 1)
        (cnv.Matrix.ofDims (fun _ => (0 : Int)) 1 1)
        (cnv.Matrix.ofDims (fun _ => (0 : Nat)) 1 1)).2.1.rows = 1 := by
  have h := conv2D_shape_and_frame (fun b : Nat => (b : Int))
    (cnv.Matrix.ofDims (fun _ => (0 : Int)) 1 1)
    (cnv.Matrix.ofDims (fun _ => (0 : Int)) 1 1)
    (cnv.Matrix.ofDims (fun _ => (0 : Nat)) 1 1) rfl rfl
  exact ⟨h.1, h.2.2.2.2.1⟩

/-- C10: for a grid with `rows ≥ 1` and `cols ≥ 1`, the buffer offset
`i + j*cols` used by `get`/`set` stays below the allocated size `rows*cols`
for all in-extent pairs `(i < rows, j < cols)` if and only if `rows ≥ cols`. -/
theorem matrix_index_inbounds_iff (rows cols : Nat) (h1 : 1 ≤ rows) (h2 : 1 ≤ cols) :
    (∀ i j, i < rows → j < cols → cnv.Matrix.index i j cols < rows * cols)
      ↔ cols ≤ rows := by
  obtain ⟨r, rfl⟩ : ∃ r, rows = r + 1 := ⟨rows - 1, by omega⟩
  obtain ⟨c, rfl⟩ : ∃ c, cols = c + 1 := ⟨cols - 1, by omega⟩
  constructor
  · intro hall
    by_contra hlt
    have hcr : r + 1 < c + 1 := by omega
    have hoob := hall r c (by omega) (by omega)
    unfold cnv.Matrix.index at hoob
    have hge : (r + 1) * (c + 1) ≤ c * (c + 1) :=
      Nat.mul_le_mul (by omega) (Nat.le_refl (c + 1))
    have : r + c * (c + 1) < c * (c + 1) := lt_of_lt_of_le hoob hge
    exact Nat.not_lt.2 (Nat.le_add_left _ _) this
  · intro hcr i j hi hj
    unfold cnv.Matrix.index
    have hjc : j * (c + 1) ≤ c * (c + 1) := Nat.mul_le_mul (by omega) (Nat.le_refl (c + 1))
    have hcrows : c * (c + 1) ≤ c * (r + 1) := Nat.mul_le_mul (Nat.le_refl c) hcr
    calc i + j * (c + 1) ≤ i + c * (r + 1) := by omega
      _ < (r + 1) + c * (r + 1) := by omega
      _ = (c + 1) * (r + 1) := by ring
      _ = (r + 1) * (c + 1) := Nat.mul_comm _ _

/-- C10 witness: for the concrete grid with `rows = 1`, `cols = 2` the
in-extent access `(i, j) = (0, 1)` has offset `2`, one past the end of the
2-element buffer, so the bounded-offset property fails, as the theorem's
`iff` predicts (`cols ≤ rows` is false). -/
theorem matrix_index_inbounds_iff_witness :
    (¬ ∀ i j, i < 1 → j < 2 → cnv.Matrix.index i j 2 < 1 * 2)
  ∧ cnv.Matrix.index 0 1 2 = 2 := by
  constructor
  · intro hall
    have h := (matrix_index_inbounds_iff 1 2 (by decide) (by decide)).mp hall
    omega
  · rfl

/-- The inner initializer-list loop only overwrites buffer cells, so it
preserves the buffer length. -/
theorem setRow_length {T : Type} (cols i : Nat) :
    ∀ (row : List T) (j : Nat) (buf : List T),
      (cnv.Matrix.setRow cols i j buf row).length = buf.length := by
  intro row
  induction row with
  | nil => intro j buf; rfl
  | cons e rest ih =>
    intro j buf
    rw [cnv.Matrix.setRow, ih, List.length_set]

/-- The outer initializer-list loop preserves the buffer length. -/
theorem setRows_length {T : Type} (cols : Nat) :
    ∀ (ll : List (List T)) (i : Nat) (buf : List T),
      (cnv.Matrix.setRows cols i ll buf).length = buf.length := by
  intro ll
  induction ll with
  | nil => intro i buf; rfl
  | cons row rest ih =>
    intro i buf
    rw [cnv.Matrix.setRows, ih, setRow_length]

/-- The buffer-size invariant unfolded: a non-null buffer of exactly
`rows * cols` elements. -/
theorem sizeInv_iff {T : Type} (m : cnv.Matrix T) :
    cnv.Matrix.sizeInv m ↔ ∃ l, m.data = some l ∧ l.length = m.rows * m.cols := by
  unfold cnv.Matrix.sizeInv
  cases hd : m.data with
  | none => simp
  | some l => simp

/-- C6 (amended): construction with extents, nested-sequence construction,
copy construction and copy assignment establish the buffer-size invariant
(`rows * cols` owned elements), and move construction / move assignment
transfer it to the new object; but the moved-from source is left with a null
buffer while *retaining* its previous `rows` and `cols` (they are not zeroed),
so a moved-from grid does not satisfy the invariant and is not in the
default-constructed empty state. -/
theorem matrix_ops_size_invariant {T : Type} (junk : Nat → T) (rows cols : Nat)
    (ll : List (List T)) (m dst src : cnv.Matrix T) :
    cnv.Matrix.sizeInv (cnv.Matrix.ofDims junk rows cols)
  ∧ cnv.Matrix.sizeInv (cnv.Matrix.ofLists junk ll)
  ∧ (cnv.Matrix.sizeInv m → cnv.Matrix.sizeInv (cnv.Matrix.copy m))
  ∧ (cnv.Matrix.sizeInv src → cnv.Matrix.sizeInv (cnv.Matrix.copyAssign dst src))
  ∧ (cnv.Matrix.sizeInv m → cnv.Matrix.sizeInv (cnv.Matrix.move m).1)
  ∧ (cnv.Matrix.move m).2.data = none
  ∧ (cnv.Matrix.move m).2.rows = m.rows
  ∧ (cnv.Matrix.move m).2.cols = m.cols
  ∧ (cnv.Matrix.sizeInv src → cnv.Matrix.sizeInv (cnv.Matrix.moveAssign dst src).1)
  ∧ (cnv.Matrix.moveAssign dst src).2.data = none
  ∧ (cnv.Matrix.moveAssign dst src).2.rows = src.rows
  ∧ (cnv.Matrix.moveAssign dst src).2.cols = src.cols := by
  refine ⟨?_, ?_, ?_, ?_, ?_, rfl, rfl, rfl, ?_, rfl, rfl, rfl⟩
  · exact (sizeInv_iff _).mpr ⟨_, rfl, by simp [cnv.Matrix.ofDims]⟩
  · exact (sizeInv_iff _).mpr ⟨_, rfl, by rw [setRows_length]; simp [cnv.Matrix.ofLists]⟩
  · intro h
    obtain ⟨l, hd, hl⟩ := (sizeInv_iff m).mp h
    exact (sizeInv_iff _).mpr ⟨_, rfl, by simp [hd, List.length_take, hl, cnv.Matrix.copy]⟩
  · intro h
    obtain ⟨l, hd, hl⟩ := (sizeInv_iff src).mp h
    exact (sizeInv_iff _).mpr ⟨_, rfl, by simp [hd, List.length_take, hl, cnv.Matrix.copyAssign]⟩
  · intro h
    obtain ⟨l, hd, hl⟩ := (sizeInv_iff m).mp h
    exact (sizeInv_iff _).mpr ⟨l, hd, hl⟩
  · intro h
    obtain ⟨l, hd, hl⟩ := (sizeInv_iff src).mp h
    exact (sizeInv_iff _).mpr ⟨l, hd, hl⟩

/-- C6 counterexample: moving from a concrete 2×3 grid leaves the source with
a null buffer but `rows * cols = 6 ≠ 0`, refuting the claim that a moved-from
grid is left with `rows * cols = 0` like a default-constructed grid. -/
theorem move_source_dims_counterexample :
    (cnv.Matrix.move (cnv.Matrix.ofDims (fun _ => (0 : Int)) 2 3)).2.data = none
  ∧ (cnv.Matrix.move (cnv.Matrix.ofDims (fun _ => (0 : Int)) 2 3)).2.rows
      * (cnv.Matrix.move (cnv.Matrix.ofDims (fun _ => (0 : Int)) 2 3)).2.cols ≠ 0 :=
  ⟨rfl, by decide⟩

/-- C6 witness: the amended invariant theorem applied to a concrete 2×3
integer grid. -/
theorem matrix_ops_size_invariant_witness :
    cnv.Matrix.sizeInv (cnv.Matrix.copy (cnv.Matrix.ofDims (fun _ => (0 : Int)) 2 3))
  ∧ (cnv.Matrix.move (cnv.Matrix.ofDims (fun _ => (0 : Int)) 2 3)).2.data = none
  ∧ (cnv.Matrix.move (cnv.Matrix.ofDims (fun _ => (0 : Int)) 2 3)).2.rows = 2 := by
  have h := matrix_ops_size_invariant (fun _ => (0 : Int)) 2 3 [[1]]
    (cnv.Matrix.ofDims (fun _ => (0 : Int)) 2 3)
    (cnv.Matrix.ofDims (fun _ => (0 : Int)) 2 3)
    (cnv.Matrix.ofDims (fun _ => (0 : Int)) 2 3)
  exact ⟨h.2.2.1 h.1, h.2.2.2.2.2.1, h.2.2.2.2.2.2.1⟩

/-- C9: `Matrix() = default` performs no member initialisation, so a
default-constructed grid does *not* come with `rows = 0`, `cols = 0` and a
null buffer: its members hold whatever indeterminate values the storage had
(here instantiated with `rows = 7`), contradicting the claimed guarantee. -/
theorem default_ctor_uninitialized_eval :
    (cnv.Matrix.defaultCtor (T := Int) none 7 9).rows = 7 ∧ (7 : Nat) ≠ 0 :=
  ⟨rfl, by decide⟩

/-- C7 counterexample: it is false that every accelerator-side operation of
`conv2D` (allocations, host-to-device copies, the kernel launch, the
device-to-host copy-back) is immediately followed by an error-probe call:
the launch and the copy-back are not checked. -/
theorem conv2D_unchecked_ops_counterexample :
    ((cnv.accelOpsChecked cnv.conv2DTrace).all (fun b => b)) = false := by decide

/-- C7 (amended): in `conv2D` the error probe is consulted immediately after
each of the three buffer allocations and each of the two host-to-accelerator
copies, but *not* after the kernel launch nor after the device-to-host
copy-back; when the consulted status indicates failure the probe writes
`"CUDA error after <context>: <description>"` to the standard error stream
and terminates the process with the non-zero status `-1` (it never returns),
and on success it returns normally. -/
theorem conv2D_error_checking_amended :
    cnv.accelOpsChecked cnv.conv2DTrace = [true, true, true, true, true, false, false]
  ∧ cnv.conv2DTrace.filter cnv.isAccelSideOp
      = [cnv.GpuOp.malloc ("d_input"), cnv.GpuOp.malloc ("d_output"),
         cnv.GpuOp.malloc ("d_kernel"), cnv.GpuOp.memcpyH2D ("d_input"),
         cnv.GpuOp.memcpyH2D ("d_kernel"), cnv.GpuOp.launchKernel,
         cnv.GpuOp.memcpyD2H ("output")]
  ∧ (∀ msg desc : String,
      cnv.check_cuda_error msg (some desc)
        = some (("CUDA error after " ++ msg ++ ": " ++ desc), -1))
  ∧ (∀ msg : String, cnv.check_cuda_error msg none = none) :=
  ⟨by decide, by decide, fun msg desc => rfl, fun msg => rfl⟩

/-- C2: running the test scenario (the 5×5 integer grid of `testConvolution`
convolved with the 3×3 Laplacian `float` kernel through `conv2D` with
`T = int`) does *not* produce the discrete Laplacian: because `conv2D`
byte-copies the `float` kernel into the `int`-typed device buffer, the kernel
weights are read as IEEE-754 bit patterns, and the output at `(0, 0)` is
`1065353216` (the bit pattern of `1.0f`; computed as
`bits(-4.0f) + bits(1.0f) + bits(1.0f) mod 2^32`), not the claimed `-2`. -/
theorem conv2D_laplacian_test_eval :
    (cnv.conv2D cnv.int32OfFloatBits cnv.testInput5
        (cnv.Matrix.ofDims (fun _ => 0) 5 5) cnv.laplacianBits).2.1.get 0 0
      = (1065353216 : ZMod (2 ^ 32))
  ∧ (1065353216 : ZMod (2 ^ 32)) ≠ (-2 : ZMod (2 ^ 32)) := by decide

/-- C3: convolving the 1×1 integer grid `[[1]]` with the 1×1 kernel `[[1.0f]]`
through `conv2D` with `T = int` yields `1065353216` (the `int` reinterpretation
of the bits of `1.0f`), not the input value `1`: the identity-kernel property
fails for the integer element type because of the same kernel-buffer byte
reinterpretation. -/
theorem conv2D_identity_kernel_eval :
    (cnv.conv2D cnv.int32OfFloatBits
        (cnv.Matrix.ofLists (fun _ => 0) [[(1 : ZMod (2 ^ 32))]])
        (cnv.Matrix.ofDims (fun _ => 0) 1 1)
        (cnv.Matrix.ofLists (fun _ => 0) [[cnv.f32bits_one]])).2.1.get 0 0
      = (1065353216 : ZMod (2 ^ 32))
  ∧ (1065353216 : ZMod (2 ^ 32)) ≠ 1 := by decide

/-- C4: end-to-end linearity fails for the integer element type: convolving
`[[1]]` with the elementwise-sum kernel `[[2.0f]] = [[1.0f]] + [[1.0f]]`
through `conv2D` with `T = int` yields `1073741824` (bits of `2.0f`), while
summing the two separate convolutions with `[[1.0f]]` yields
`2 * 1065353216 = 2130706432`; the two disagree because the `float` kernel
bytes are reinterpreted as `int`, and bit patterns do not add like the float
values they encode. -/
theorem conv2D_linearity_int_eval :
    (cnv.conv2D cnv.int32OfFloatBits
        (cnv.Matrix.ofLists (fun _ => 0) [[(1 : ZMod (2 ^ 32))]])
        (cnv.Matrix.ofDims (fun _ => 0) 1 1)
        (cnv.Matrix.ofLists (fun _ => 0) [[cnv.f32bits_two]])).2.1.get 0 0
      = (1073741824 : ZMod (2 ^ 32))
  ∧ (cnv.conv2D cnv.int32OfFloatBits
        (cnv.Matrix.ofLists (fun _ => 0) [[(1 : ZMod (2 ^ 32))]])
        (cnv.Matrix.ofDims (fun _ => 0) 1 1)
        (cnv.Matrix.ofLists (fun _ => 0) [[cnv.f32bits_one]])).2.1.get 0 0
      + (cnv.conv2D cnv.int32OfFloatBits
            (cnv.Matrix.ofLists (fun _ => 0) [[(1 : ZMod (2 ^ 32))]])
            (cnv.Matrix.ofDims (fun _ => 0) 1 1)
            (cnv.Matrix.ofLists (fun _ => 0) [[cnv.f32bits_one]])).2.1.get 0 0
      = (2130706432 : ZMod (2 ^ 32))
  ∧ (1073741824 : ZMod (2 ^ 32)) ≠ (2130706432 : ZMod (2 ^ 32)) := by decide
